import Mathlib

/-!
Verification of the streaming chat client in `src/public/chat.js`.

The embedding models the client at the level of its observable data:
the chat transcript (`chatHistory`), the busy flag (`isProcessing`),
the rendered DOM node list, the localStorage cell, and the streamed
response body (a list of already-decoded text chunks).  Host built-ins
(`JSON.parse`, `JSON.stringify`, `String.prototype.split`,
`String.prototype.trim`) are embedded as executable Lean functions over
character lists.
-/

namespace Haiku

/-- A JavaScript JSON value as produced by `JSON.parse`.  Numbers are kept
as their source lexeme: no claim exercises numeric values, and this avoids
committing to floating-point semantics. -/
inductive Json where
  | null : Json
  | bool : Bool → Json
  | num : String → Json
  | str : String → Json
  | arr : List Json → Json
  | obj : List (String × Json) → Json

/-- One chat message: a `{role, content}` record. -/
structure Message where
  role : String
  content : String
deriving DecidableEq

/-- The left brace character, kept as a named constant. -/
def lbrace : Char := Char.ofNat 123

/-- The right brace character, kept as a named constant. -/
def rbrace : Char := Char.ofNat 125

/-- JSON insignificant whitespace. -/
def isWs (c : Char) : Bool := c = ' ' ∨ c = '\t' ∨ c = '\n' ∨ c = '\r'

/-- Drop leading JSON whitespace. -/
def skipWs : List Char → List Char
  | [] => []
  | c :: cs => if isWs c then skipWs cs else c :: cs

/-- ASCII decimal digit test. -/
def isDigit (c : Char) : Bool := '0' ≤ c ∧ c ≤ '9'

/-- Value of one hexadecimal digit. -/
def hexVal (c : Char) : Option Nat :=
  if '0' ≤ c ∧ c ≤ '9' then some (c.toNat - 48)
  else if 'a' ≤ c ∧ c ≤ 'f' then some (c.toNat - 87)
  else if 'A' ≤ c ∧ c ≤ 'F' then some (c.toNat - 55)
  else none

/-- Value of a four-digit hexadecimal escape. -/
def hex4 (h1 h2 h3 h4 : Char) : Option Nat :=
  match hexVal h1, hexVal h2, hexVal h3, hexVal h4 with
  | some v1, some v2, some v3, some v4 => some (((v1 * 16 + v2) * 16 + v3) * 16 + v4)
  | _, _, _, _ => none

/-- The short JSON string escapes following a backslash. -/
def unescapeChar (c : Char) : Option Char :=
  if c = '"' then some '"'
  else if c = '\\' then some '\\'
  else if c = '/' then some '/'
  else if c = 'b' then some '\x08'
  else if c = 'f' then some '\x0c'
  else if c = 'n' then some '\n'
  else if c = 'r' then some '\r'
  else if c = 't' then some '\t'
  else none

/-- Parse the body of a JSON string (the opening quote already consumed),
returning the decoded characters and the input after the closing quote. -/
def parseStrBody : List Char → Option (List Char × List Char)
  | [] => none
  | c :: cs =>
    if c = '"' then some ([], cs)
    else if c = '\\' then
      match cs with
      | [] => none
      | e :: cs1 =>
        if e = 'u' then
          match cs1 with
          | h1 :: h2 :: h3 :: h4 :: cs2 =>
            match hex4 h1 h2 h3 h4 with
            | some n =>
              match parseStrBody cs2 with
              | some (s, r) => some (Char.ofNat n :: s, r)
              | none => none
            | none => none
          | _ => none
        else
          match unescapeChar e with
          | some d =>
            match parseStrBody cs1 with
            | some (s, r) => some (d :: s, r)
            | none => none
          | none => none
    else if c.toNat < 32 then none
    else
      match parseStrBody cs with
      | some (s, r) => some (c :: s, r)
      | none => none

/-- Parse the optional fraction part of a JSON number. -/
def parseFrac (cs : List Char) : Option (List Char × List Char) :=
  match cs with
  | '.' :: r =>
    let p := r.span isDigit
    if p.1 = [] then none else some ('.' :: p.1, p.2)
  | _ => some ([], cs)

/-- Parse the optional exponent part of a JSON number. -/
def parseExp (cs : List Char) : Option (List Char × List Char) :=
  match cs with
  | [] => some ([], [])
  | c :: r =>
    if c = 'e' ∨ c = 'E' then
      let q : List Char × List Char :=
        match r with
        | s :: r1 => if s = '+' ∨ s = '-' then ([s], r1) else ([], r)
        | [] => ([], r)
      let p := q.2.span isDigit
      if p.1 = [] then none else some (c :: (q.1 ++ p.1), p.2)
    else some ([], c :: r)

/-- Parse a JSON number, returning its lexeme and the remaining input. -/
def parseNumber (cs : List Char) : Option (List Char × List Char) :=
  let s : List Char × List Char :=
    match cs with
    | '-' :: r => (['-'], r)
    | _ => ([], cs)
  let ip := s.2.span isDigit
  if ip.1 = [] then none
  else if 1 < ip.1.length ∧ ip.1.headD ' ' = '0' then none
  else
    match parseFrac ip.2 with
    | none => none
    | some (fp, cs3) =>
      match parseExp cs3 with
      | none => none
      | some (ep, cs4) => some (s.1 ++ ip.1 ++ fp ++ ep, cs4)

/-- Parsing mode: a single value, array elements, or object members. -/
inductive PMode where
  | val : PMode
  | elems : PMode
  | mems : PMode

/-- Parsing result for each mode. -/
inductive PRes where
  | val : Json → List Char → PRes
  | elems : List Json → List Char → PRes
  | mems : List (String × Json) → List Char → PRes

/-- Fuel-indexed recursive-descent JSON value grammar, covering values,
array element lists and object member lists.  Structural recursion on the
fuel keeps every run kernel-reducible. -/
def pvAux : Nat → PMode → List Char → Option PRes
  | 0, _, _ => none
  | fuel + 1, .val, cs =>
    match skipWs cs with
    | [] => none
    | c :: rest =>
      if c = '"' then
        match parseStrBody rest with
        | some (s, r) => some (.val (.str (String.mk s)) r)
        | none => none
      else if c = '[' then
        match skipWs rest with
        | [] => none
        | c2 :: r =>
          if c2 = ']' then some (.val (.arr []) r)
          else
            match pvAux fuel .elems rest with
            | some (.elems js r2) => some (.val (.arr js) r2)
            | _ => none
      else if c = lbrace then
        match skipWs rest with
        | [] => none
        | c2 :: r =>
          if c2 = rbrace then some (.val (.obj []) r)
          else
            match pvAux fuel .mems rest with
            | some (.mems kvs r2) => some (.val (.obj kvs) r2)
            | _ => none
      else if c = 't' then
        match rest with
        | 'r' :: 'u' :: 'e' :: r => some (.val (.bool true) r)
        | _ => none
      else if c = 'f' then
        match rest with
        | 'a' :: 'l' :: 's' :: 'e' :: r => some (.val (.bool false) r)
        | _ => none
      else if c = 'n' then
        match rest with
        | 'u' :: 'l' :: 'l' :: r => some (.val .null r)
        | _ => none
      else if c = '-' ∨ isDigit c then
        match parseNumber (c :: rest) with
        | some (lx, r) => some (.val (.num (String.mk lx)) r)
        | none => none
      else none
  | fuel + 1, .elems, cs =>
    match pvAux fuel .val cs with
    | some (.val j r) =>
      (match skipWs r with
       | ',' :: r1 =>
         (match pvAux fuel .elems r1 with
          | some (.elems js rr) => some (.elems (j :: js) rr)
          | _ => none)
       | ']' :: r1 => some (.elems [j] r1)
       | _ => none)
    | _ => none
  | fuel + 1, .mems, cs =>
    match skipWs cs with
    | '"' :: rest =>
      (match parseStrBody rest with
       | some (k, r) =>
         (match skipWs r with
          | ':' :: r1 =>
            (match pvAux fuel .val r1 with
             | some (.val v r2) =>
               (match skipWs r2 with
                | [] => none
                | c3 :: r3 =>
                  if c3 = ',' then
                    match pvAux fuel .mems r3 with
                    | some (.mems kvs rr) => some (.mems ((String.mk k, v) :: kvs) rr)
                    | _ => none
                  else if c3 = rbrace then some (.mems [(String.mk k, v)] r3)
                  else none)
             | _ => none)
          | _ => none)
       | none => none)
    | _ => none

/-- `JSON.parse` on a character list: parse one value and require that only
whitespace remains. -/
def jsonParseChars (cs : List Char) : Option Json :=
  match pvAux (2 * cs.length + 2) .val cs with
  | some (.val j rest) => if skipWs rest = [] then some j else none
  | _ => none

/-- `JSON.parse` on a string. -/
def jsonParse (s : String) : Option Json := jsonParseChars s.data

/-- `JSON.stringify` escaping of one string character. -/
def hexDigit (n : Nat) : Char :=
  if n < 10 then Char.ofNat (48 + n) else Char.ofNat (87 + n)

/-- `JSON.stringify` escaping of one string character. -/
def escChar (c : Char) : List Char :=
  if c = '"' then ['\\', '"']
  else if c = '\\' then ['\\', '\\']
  else if c = '\n' then ['\\', 'n']
  else if c = '\r' then ['\\', 'r']
  else if c = '\t' then ['\\', 't']
  else if c = '\x08' then ['\\', 'b']
  else if c = '\x0c' then ['\\', 'f']
  else if c.toNat < 32 then ['\\', 'u', '0', '0', hexDigit (c.toNat / 16), hexDigit (c.toNat % 16)]
  else [c]

/-- `JSON.stringify` escaping of a string body. -/
def escBody : List Char → List Char
  | [] => []
  | c :: cs => escChar c ++ escBody cs

/-- `JSON.stringify` of a string. -/
def strChars (s : String) : List Char := '"' :: (escBody s.data ++ ['"'])

/-- `JSON.stringify` of one `{role, content}` record, with the key order the
code uses when it builds history entries. -/
def msgChars (m : Message) : List Char :=
  lbrace :: ('"' :: 'r' :: 'o' :: 'l' :: 'e' :: '"' :: ':' :: strChars m.role)
    ++ ',' :: '"' :: 'c' :: 'o' :: 'n' :: 't' :: 'e' :: 'n' :: 't' :: '"' :: ':' :: strChars m.content
    ++ [rbrace]

/-- `JSON.stringify` of the comma-separated element list of a transcript. -/
def elemsChars : List Message → List Char
  | [] => []
  | [m] => msgChars m
  | m :: ms => msgChars m ++ ',' :: elemsChars ms

/-- `JSON.stringify` of a transcript. -/
def transcriptChars (h : List Message) : List Char :=
  '[' :: (elemsChars h ++ [']'])

/-- The JSON value `JSON.parse` recovers for one message record. -/
def msgToJson (m : Message) : Json :=
  .obj [("role", .str m.role), ("content", .str m.content)]

/-- The JSON value `JSON.parse` recovers for a whole transcript. -/
def transcriptToJson (h : List Message) : Json := .arr (h.map msgToJson)

/-- JavaScript property lookup on an object built by `JSON.parse`:
with duplicate keys, the last occurrence wins. -/
def lookupLast (kvs : List (String × Json)) (k : String) : Option Json :=
  ((kvs.filter (fun p => p.1 = k)).getLast?).map (fun p => p.2)

/-- The `.response` property access in the stream loop.  On a non-object
the access yields `undefined` (or throws on `null`, which the surrounding
`catch` turns into a skip), so both are modelled as absence. -/
def respField : Json → Option Json
  | .obj kvs => lookupLast kvs "response"
  | _ => none

/-- True when a JSON number lexeme denotes zero: no nonzero digit occurs
before the exponent marker. -/
def numIsZero (lx : String) : Bool :=
  (lx.data.takeWhile (fun c => c ≠ 'e' ∧ c ≠ 'E')).all (fun c => ¬('1' ≤ c ∧ c ≤ '9'))

/-- JavaScript truthiness of a JSON value. -/
def jsTruthy : Json → Bool
  | .null => false
  | .bool b => b
  | .num lx => ¬numIsZero lx
  | .str s => s ≠ ""
  | .arr _ => true
  | .obj _ => true

/-- JavaScript string coercion of a JSON value, as used by `+=`.  The array
case is approximated by the empty string; no claim exercises it. -/
def jsToString : Json → String
  | .str s => s
  | .bool true => "true"
  | .bool false => "false"
  | .null => "null"
  | .num lx => lx
  | .arr _ => ""
  | .obj _ => "[object Object]"

/-- `chunk.split("\n")` on a character list. -/
def splitLines : List Char → List (List Char)
  | [] => [[]]
  | c :: cs =>
    if c = '\n' then [] :: splitLines cs
    else
      match splitLines cs with
      | [] => [[c]]
      | l :: ls => (c :: l) :: ls

/-- One iteration of the inner line loop of `sendMessage`: parse the line,
and when it exposes a truthy `response` field append the text to
`responseText` and record the re-render of the pending node with the full
accumulator. -/
def streamStep (s : String × List String) (line : List Char) : String × List String :=
  match jsonParseChars line with
  | some j =>
    (match respField j with
     | some v =>
       if jsTruthy v then
         ((s.1 ++ jsToString v), s.2 ++ [s.1 ++ jsToString v])
       else s
     | none => s)
  | none => s

/-- Processing of one decoded chunk: split on newlines, run the line loop. -/
def processChunk (s : String × List String) (chunk : String) : String × List String :=
  (splitLines chunk.data).foldl streamStep s

/-- The whole read loop of `sendMessage` over the delivered chunks, starting
from the empty accumulator; returns the final `responseText` and the list of
cumulative values passed to the pending-node re-render. -/
def runStream (chunks : List String) : String × List String :=
  chunks.foldl processChunk ("", [])

/-- All lines seen by the loop, chunk by chunk. -/
def linesOf : List String → List (List Char)
  | [] => []
  | c :: cs => splitLines c.data ++ linesOf cs

/-- JavaScript `String.prototype.trim` whitespace. -/
def isJsSpace (c : Char) : Bool :=
  c = ' ' ∨ c = '\t' ∨ c = '\n' ∨ c = '\r' ∨ c = '\x0b' ∨ c = '\x0c'

/-- JavaScript `String.prototype.trim`. -/
def jsTrim (s : String) : String :=
  String.mk (((s.data.dropWhile isJsSpace).reverse.dropWhile isJsSpace).reverse)

/-- An apostrophe, kept as a named one-character string. -/
def apos : String := String.mk [Char.ofNat 39]

/-- The fixed welcome text of the default history entry. -/
def welcomeText : String :=
  "### Hello there! I" ++ apos ++ "m an LLM Haiku poet, here to give you a hand with your writing.\nIf you write a haiku, I" ++ apos ++ "ll help you refine it or suggest improvements. Let" ++ apos ++ "s create some beautiful poetry together!"

/-- The welcome message record. -/
def welcomeMessage : Message := ⟨"assistant", welcomeText⟩

/-- The JSON value of the default one-element transcript. -/
def defaultHistoryJson : Json := .arr [msgToJson welcomeMessage]

/-- The initializer of `chatHistory`: read the storage key, and when the raw
value is truthy return `JSON.parse` of it; any read or parse failure, and an
absent or empty value, degrade to the default welcome transcript.  The
storage read result is passed explicitly: `.error` models a throwing
`localStorage.getItem`, `.ok none` an absent key. -/
def loadChatHistory (raw : Except Unit (Option String)) : Json :=
  match raw with
  | .ok (some s) =>
    if s = "" then defaultHistoryJson
    else
      match jsonParse s with
      | some j => j
      | none => defaultHistoryJson
  | _ => defaultHistoryJson

/-- Decode one parsed JSON value back into a `{role, content}` record. -/
def jsonToMsg : Json → Option Message
  | .obj kvs =>
    (match lookupLast kvs "role", lookupLast kvs "content" with
     | some (.str r), some (.str c) => some ⟨r, c⟩
     | _, _ => none)
  | _ => none

/-- Decode a list of parsed JSON values into records. -/
def msgsOfJsonList : List Json → Option (List Message)
  | [] => some []
  | j :: js =>
    match jsonToMsg j, msgsOfJsonList js with
    | some m, some ms => some (m :: ms)
    | _, _ => none

/-- Decode a parsed JSON value into a transcript, when it has that shape. -/
def jsonToTranscript : Json → Option (List Message)
  | .arr js => msgsOfJsonList js
  | _ => none

/-- Content of a rendered DOM node: sanitized markup, or the raw-text
fallback when markdown conversion throws. -/
inductive NodeContent where
  | html : String → NodeContent
  | text : String → NodeContent
deriving DecidableEq

/-- One rendered message element: its class attribute and its content. -/
structure ChatNode where
  cls : String
  content : NodeContent
deriving DecidableEq

/-- Render markdown through the injected converter, falling back to raw
text when it fails. -/
def renderContent (conv : String → Option String) (content : String) : NodeContent :=
  match conv content with
  | some html => .html html
  | none => .text content

/-- `addMessageToChat`: append one rendered message element. -/
def addMessageToChat (conv : String → Option String) (role content : String)
    (nodes : List ChatNode) : List ChatNode :=
  nodes ++ [⟨"message " ++ role ++ "-message", renderContent conv content⟩]

/-- The node `addMessageToChat` builds. -/
def mkChatNode (conv : String → Option String) (role content : String) : ChatNode :=
  ⟨"message " ++ role ++ "-message", renderContent conv content⟩

/-- The empty pending assistant element created before the fetch. -/
def pendingNode : ChatNode := ⟨"message assistant-message", .html "<p></p>"⟩

/-- The fixed fallback text of the catch branch. -/
def errMsg : String := "Sorry, there was an error processing your request."

/-- The observable client state. -/
structure St where
  chatHistory : List Message
  isProcessing : Bool
  inputValue : String
  nodes : List ChatNode
  typingVisible : Bool
  inputDisabled : Bool
  sendDisabled : Bool
  storage : Option String
deriving DecidableEq

/-- `saveChatHistory`: persist the serialized transcript; a write failure
(`w = false`) is swallowed and leaves storage unchanged. -/
def saveChatHistory (w : Bool) (st : St) : St :=
  if w then { st with storage := some (String.mk (transcriptChars st.chatHistory)) } else st

/-- Final content of the pending node after the incremental re-renders. -/
def updatePending (conv : String → Option String) (nodes : List ChatNode)
    (renders : List String) : List ChatNode :=
  match renders.getLast? with
  | some t => nodes.dropLast ++ [mkChatNode conv "assistant" t]
  | none => nodes

/-- The catch branch of `sendMessage`: display the fallback message, append
it to the history and persist. -/
def catchBranch (conv : String → Option String) (w : Bool) (st : St) : St :=
  let st1 := { st with nodes := addMessageToChat conv "assistant" errMsg st.nodes }
  let st2 := { st1 with chatHistory := st1.chatHistory ++ [⟨"assistant", errMsg⟩] }
  saveChatHistory w st2

/-- Outcome of the outbound `fetch`: rejection, a non-success status, or a
successful response whose body delivers the given chunks and then either
closes (`readFail = false`) or fails on the next read. -/
inductive FetchOutcome where
  | netError : FetchOutcome
  | httpError : FetchOutcome
  | stream : List String → Bool → FetchOutcome

/-- Whether the outcome aborts the exchange. -/
def FetchOutcome.isFailure : FetchOutcome → Bool
  | .netError => true
  | .httpError => true
  | .stream _ readFail => readFail

/-- Result of one `sendMessage` run: the final state, how many network
calls were issued, and the cumulative values passed to the pending-node
re-render. -/
structure SendResult where
  state : St
  fetchCount : Nat
  pendingRenders : List String
deriving DecidableEq

/-- `sendMessage`: the full exchange, from the guard clause to the
`finally` block, parameterized by the markdown converter, storage-write
availability and the fetch outcome. -/
def sendMessage (conv : String → Option String) (w : Bool) (out : FetchOutcome)
    (st : St) : SendResult :=
  let message := jsTrim st.inputValue
  if message = "" ∨ st.isProcessing then ⟨st, 0, []⟩
  else
    let st1 := { st with isProcessing := true, inputDisabled := true, sendDisabled := true }
    let st2 := { st1 with nodes := addMessageToChat conv "user" message st1.nodes }
    let st3 := { st2 with inputValue := "" }
    let st4 := { st3 with typingVisible := true }
    let st5 := saveChatHistory w { st4 with chatHistory := st4.chatHistory ++ [⟨"user", message⟩] }
    let st6 := { st5 with nodes := st5.nodes ++ [pendingNode] }
    let res : St × Nat × List String :=
      match out with
      | .netError => (catchBranch conv w st6, 1, [])
      | .httpError => (catchBranch conv w st6, 1, [])
      | .stream chunks readFail =>
        let p := runStream chunks
        let st7 := { st6 with nodes := updatePending conv st6.nodes p.2 }
        if readFail then (catchBranch conv w st7, 1, p.2)
        else
          let st8 := saveChatHistory w
            { st7 with chatHistory := st7.chatHistory ++ [⟨"assistant", p.1⟩] }
          (st8, 1, p.2)
    let fin := { res.1 with typingVisible := false, isProcessing := false, inputDisabled := false, sendDisabled := false }
    ⟨fin, res.2.1, res.2.2⟩

/-- `renderChatFromHistory`: clear the message list and redraw every
history entry in order. -/
def renderChatFromHistory (conv : String → Option String) (st : St) : St :=
  { st with nodes := st.chatHistory.foldl (fun ns m => addMessageToChat conv m.role m.content ns) [] }

/-- A concrete idle state used by the witnesses. -/
def stW : St := ⟨[], false, "write a haiku", [], false, false, false, none⟩

/-- A concrete busy state used by the witnesses. -/
def stBusy : St := ⟨[], true, "write a haiku", [], true, true, true, none⟩

/-- A concrete idle state with blank input used by the witnesses. -/
def stBlank : St := ⟨[], false, "  \n ", [], false, false, false, none⟩

theorem streamStep_nil (s : String × List String) : streamStep s [] = s := rfl

theorem foldl_streamStep_filter (ls : List (List Char)) (s : String × List String) :
    ls.foldl streamStep s = (ls.filter (fun l => l ≠ [])).foldl streamStep s := by
  induction ls generalizing s with
  | nil => rfl
  | cons l ls ih =>
    by_cases h : l = []
    · subst h
      simpa [List.filter_cons, streamStep_nil] using ih s
    · simpa [List.filter_cons, h] using ih (streamStep s l)

theorem foldl_processChunk_linesOf (chunks : List String) (s : String × List String) :
    chunks.foldl processChunk s = (linesOf chunks).foldl streamStep s := by
  induction chunks generalizing s with
  | nil => rfl
  | cons c cs ih =>
    rw [List.foldl_cons, ih, linesOf, List.foldl_append]
    rfl

theorem runStream_linesOf (chunks : List String) :
    runStream chunks = ((linesOf chunks).filter (fun l => l ≠ [])).foldl streamStep ("", []) := by
  rw [runStream, foldl_processChunk_linesOf, foldl_streamStep_filter]

theorem saveChatHistory_chatHistory (w : Bool) (st : St) :
    (saveChatHistory w st).chatHistory = st.chatHistory := by
  unfold saveChatHistory; split <;> rfl

theorem saveChatHistory_nodes (w : Bool) (st : St) :
    (saveChatHistory w st).nodes = st.nodes := by
  unfold saveChatHistory; split <;> rfl

theorem saveChatHistory_isProcessing (w : Bool) (st : St) :
    (saveChatHistory w st).isProcessing = st.isProcessing := by
  unfold saveChatHistory; split <;> rfl

/-- Claim C1: when the body delivers the complete lines
`{"response":"Hel"}` and `{"response":"lo"}` and then closes, the final
assistant message content is `"Hello"` and the pending node is re-rendered
exactly twice, with cumulative values `"Hel"` then `"Hello"`. -/
theorem stream_accumulates_fragments (conv : String → Option String) (w : Bool)
    (st : St) (chunks : List String)
    (hbusy : st.isProcessing = false) (hmsg : jsTrim st.inputValue ≠ "")
    (hlines : (linesOf chunks).filter (fun l => l ≠ []) =
      ["\x7b\"response\":\"Hel\"\x7d".data, "\x7b\"response\":\"lo\"\x7d".data]) :
    (sendMessage conv w (.stream chunks false) st).state.chatHistory
        = st.chatHistory ++ [⟨"user", jsTrim st.inputValue⟩, ⟨"assistant", "Hello"⟩]
    ∧ (sendMessage conv w (.stream chunks false) st).pendingRenders = ["Hel", "Hello"] := by
  have hrun : runStream chunks = ("Hello", ["Hel", "Hello"]) := by
    rw [runStream_linesOf, hlines]; rfl
  constructor
  · simp [sendMessage, hmsg, hbusy, hrun, saveChatHistory_chatHistory]
  · simp [sendMessage, hmsg, hbusy, hrun]

theorem c1_witness :
    (sendMessage (fun s => some s) true
        (.stream ["\x7b\"response\":\"Hel\"\x7d\n", "\x7b\"response\":\"lo\"\x7d"] false) stW).state.chatHistory
      = stW.chatHistory ++ [⟨"user", jsTrim stW.inputValue⟩, ⟨"assistant", "Hello"⟩]
    ∧ (sendMessage (fun s => some s) true
        (.stream ["\x7b\"response\":\"Hel\"\x7d\n", "\x7b\"response\":\"lo\"\x7d"] false) stW).pendingRenders
      = ["Hel", "Hello"] :=
  stream_accumulates_fragments (fun s => some s) true stW _ rfl (by decide) (by decide)

/-- Claim C2: a malformed line is skipped (it contributes nothing and no
exception escapes the exchange), so after `not json` followed by
`{"response":"ok"}` the final assistant message content is `"ok"`, the
exchange ends on the success path and the busy flag is cleared. -/
theorem malformed_line_skipped (conv : String → Option String) (w : Bool)
    (st : St) (chunks : List String)
    (hbusy : st.isProcessing = false) (hmsg : jsTrim st.inputValue ≠ "")
    (hlines : (linesOf chunks).filter (fun l => l ≠ []) =
      ["not json".data, "\x7b\"response\":\"ok\"\x7d".data]) :
    (sendMessage conv w (.stream chunks false) st).state.chatHistory
        = st.chatHistory ++ [⟨"user", jsTrim st.inputValue⟩, ⟨"assistant", "ok"⟩]
    ∧ (sendMessage conv w (.stream chunks false) st).pendingRenders = ["ok"]
    ∧ (sendMessage conv w (.stream chunks false) st).state.isProcessing = false := by
  have hrun : runStream chunks = ("ok", ["ok"]) := by
    rw [runStream_linesOf, hlines]; rfl
  refine ⟨?_, ?_, ?_⟩
  · simp [sendMessage, hmsg, hbusy, hrun, saveChatHistory_chatHistory]
  · simp [sendMessage, hmsg, hbusy, hrun]
  · simp [sendMessage, hmsg, hbusy, hrun]

theorem c2_witness :
    (sendMessage (fun s => some s) true
        (.stream ["not json\n\x7b\"response\":\"ok\"\x7d"] false) stW).state.chatHistory
      = stW.chatHistory ++ [⟨"user", jsTrim stW.inputValue⟩, ⟨"assistant", "ok"⟩]
    ∧ (sendMessage (fun s => some s) true
        (.stream ["not json\n\x7b\"response\":\"ok\"\x7d"] false) stW).pendingRenders = ["ok"]
    ∧ (sendMessage (fun s => some s) true
        (.stream ["not json\n\x7b\"response\":\"ok\"\x7d"] false) stW).state.isProcessing = false :=
  malformed_line_skipped (fun s => some s) true stW _ rfl (by decide) (by decide)

/-- Claim C3: a JSON line split across two chunk reads is silently dropped:
the joined line parses and carries the fragment `"B"`, but since each chunk
is split on newlines independently both halves fail to parse, so the
accumulated reply keeps only the fragments of intact lines. -/
theorem split_line_dropped :
    jsonParseChars ("\x7b\"respon".data ++ "se\":\"B\"\x7d".data)
        = some (Json.obj [("response", Json.str "B")])
    ∧ jsonParseChars "\x7b\"respon".data = none
    ∧ jsonParseChars "se\":\"B\"\x7d".data = none
    ∧ runStream ["\x7b\"response\":\"A\"\x7d\n\x7b\"respon", "se\":\"B\"\x7d\n\x7b\"response\":\"C\"\x7d"]
        = ("AC", ["A", "AC"]) :=
  ⟨rfl, rfl, rfl, rfl⟩

/-- Claim C6: submitting while the busy flag is set is a no-op: the state is
unchanged, no network call is issued and nothing is rendered. -/
theorem submit_busy_noop (conv : String → Option String) (w : Bool)
    (out : FetchOutcome) (st : St) (hbusy : st.isProcessing = true) :
    sendMessage conv w out st = ⟨st, 0, []⟩ := by
  simp [sendMessage, hbusy]

theorem c6_witness :
    sendMessage (fun s => some s) true FetchOutcome.httpError stBusy = ⟨stBusy, 0, []⟩ :=
  submit_busy_noop (fun s => some s) true FetchOutcome.httpError stBusy rfl

/-- Claim C7: submitting text that trims to the empty string is a no-op:
the state is unchanged and no network call is issued. -/
theorem submit_blank_noop (conv : String → Option String) (w : Bool)
    (out : FetchOutcome) (st : St) (hblank : jsTrim st.inputValue = "") :
    sendMessage conv w out st = ⟨st, 0, []⟩ := by
  simp [sendMessage, hblank]

theorem c7_witness :
    sendMessage (fun s => some s) true FetchOutcome.httpError stBlank = ⟨stBlank, 0, []⟩ :=
  submit_blank_noop (fun s => some s) true FetchOutcome.httpError stBlank (by decide)

theorem catchBranch_chatHistory (conv : String → Option String) (w : Bool) (st : St) :
    (catchBranch conv w st).chatHistory = st.chatHistory ++ [⟨"assistant", errMsg⟩] := by
  simp [catchBranch, saveChatHistory_chatHistory]

theorem catchBranch_nodes (conv : String → Option String) (w : Bool) (st : St) :
    (catchBranch conv w st).nodes = st.nodes ++ [mkChatNode conv "assistant" errMsg] := by
  simp [catchBranch, saveChatHistory_nodes, addMessageToChat, mkChatNode]

theorem catchBranch_storage (conv : String → Option String) (st : St) :
    (catchBranch conv true st).storage
      = some (String.mk (transcriptChars (st.chatHistory ++ [⟨"assistant", errMsg⟩]))) := by
  simp [catchBranch, saveChatHistory, addMessageToChat]

/-- Claim C4: a network error, a non-success status or a body-read failure
aborts the exchange with exactly one network call: the history gains the
user message and one assistant message holding the fixed fallback text, the
fallback message is displayed as the last rendered node, the serialized
final transcript is persisted when storage writes succeed, and the busy
flag returns to false. -/
theorem failure_fallback (conv : String → Option String) (w : Bool)
    (st : St) (out : FetchOutcome)
    (hbusy : st.isProcessing = false) (hmsg : jsTrim st.inputValue ≠ "")
    (hfail : out.isFailure = true) :
    (sendMessage conv w out st).state.chatHistory
        = st.chatHistory ++ [⟨"user", jsTrim st.inputValue⟩, ⟨"assistant", errMsg⟩]
    ∧ (sendMessage conv w out st).state.isProcessing = false
    ∧ (sendMessage conv w out st).fetchCount = 1
    ∧ (sendMessage conv w out st).state.nodes.getLast?
        = some (mkChatNode conv "assistant" errMsg)
    ∧ (w = true → (sendMessage conv w out st).state.storage
        = some (String.mk (transcriptChars
            (st.chatHistory ++ [⟨"user", jsTrim st.inputValue⟩, ⟨"assistant", errMsg⟩])))) := by
  cases out with
  | netError =>
    refine ⟨?_, ?_, ?_, ?_, fun hw => ?_⟩ <;> [skip; skip; skip; skip; subst hw] <;>
      simp [sendMessage, hmsg, hbusy, catchBranch_chatHistory, catchBranch_nodes,
        catchBranch_storage, saveChatHistory_chatHistory, saveChatHistory_nodes]
  | httpError =>
    refine ⟨?_, ?_, ?_, ?_, fun hw => ?_⟩ <;> [skip; skip; skip; skip; subst hw] <;>
      simp [sendMessage, hmsg, hbusy, catchBranch_chatHistory, catchBranch_nodes,
        catchBranch_storage, saveChatHistory_chatHistory, saveChatHistory_nodes]
  | stream chunks readFail =>
    have hrf : readFail = true := hfail
    subst hrf
    refine ⟨?_, ?_, ?_, ?_, fun hw => ?_⟩ <;> [skip; skip; skip; skip; subst hw] <;>
      simp [sendMessage, hmsg, hbusy, catchBranch_chatHistory, catchBranch_nodes,
        catchBranch_storage, saveChatHistory_chatHistory, saveChatHistory_nodes,
        updatePending]

theorem c4_witness :
    (sendMessage (fun s => some s) true FetchOutcome.httpError stW).state.chatHistory
        = stW.chatHistory ++ [⟨"user", jsTrim stW.inputValue⟩, ⟨"assistant", errMsg⟩]
    ∧ (sendMessage (fun s => some s) true FetchOutcome.httpError stW).state.isProcessing = false
    ∧ (sendMessage (fun s => some s) true FetchOutcome.httpError stW).fetchCount = 1
    ∧ (sendMessage (fun s => some s) true FetchOutcome.httpError stW).state.nodes.getLast?
        = some (mkChatNode (fun s => some s) "assistant" errMsg)
    ∧ (true = true → (sendMessage (fun s => some s) true FetchOutcome.httpError stW).state.storage
        = some (String.mk (transcriptChars
            (stW.chatHistory ++ [⟨"user", jsTrim stW.inputValue⟩, ⟨"assistant", errMsg⟩])))) :=
  failure_fallback (fun s => some s) true stW FetchOutcome.httpError rfl (by decide) rfl

theorem foldl_addMessage_eq_map (conv : String → Option String)
    (l : List Message) (acc : List ChatNode) :
    l.foldl (fun ns m => addMessageToChat conv m.role m.content ns) acc
      = acc ++ l.map (fun m => mkChatNode conv m.role m.content) := by
  induction l generalizing acc with
  | nil => simp
  | cons m ms ih =>
    rw [List.foldl_cons, ih]
    simp [addMessageToChat, mkChatNode]

/-- Claim C9: `renderChatFromHistory` clears the visible list and redraws
every message, so the visible list afterwards is exactly the transcript,
rendered in chronological order, with one entry per message. -/
theorem renderAll_projects (conv : String → Option String) (st : St) :
    (renderChatFromHistory conv st).nodes
        = st.chatHistory.map (fun m => mkChatNode conv m.role m.content)
    ∧ (renderChatFromHistory conv st).nodes.length = st.chatHistory.length := by
  have h : (renderChatFromHistory conv st).nodes
      = st.chatHistory.map (fun m => mkChatNode conv m.role m.content) := by
    rw [renderChatFromHistory]
    simpa using foldl_addMessage_eq_map conv st.chatHistory []
  exact ⟨h, by rw [h, List.length_map]⟩

/-- Claim C5: the history initializer returns the parsed persisted value
when the stored string is present (truthy) and parseable, and otherwise —
storage empty, read failure, or parse failure — the one-element default
transcript whose single message has role `assistant` and the fixed welcome
text; it never propagates an exception (it is total over all read results). -/
theorem load_contract :
    (∀ s j, jsonParse s = some j → loadChatHistory (Except.ok (some s)) = j)
    ∧ (∀ s, jsonParse s = none → loadChatHistory (Except.ok (some s)) = defaultHistoryJson)
    ∧ loadChatHistory (Except.ok none) = defaultHistoryJson
    ∧ loadChatHistory (Except.error ()) = defaultHistoryJson
    ∧ defaultHistoryJson = Json.arr [msgToJson welcomeMessage]
    ∧ jsonToTranscript defaultHistoryJson = some [welcomeMessage] := by
  refine ⟨?_, ?_, rfl, rfl, rfl, rfl⟩
  · intro s j h
    have hne : s ≠ "" := by
      intro he
      rw [he] at h
      exact Option.noConfusion h
    rw [loadChatHistory]
    simp [hne, h]
  · intro s h
    by_cases he : s = ""
    · rw [loadChatHistory]
      simp [he]
    · rw [loadChatHistory]
      simp [he, h]

theorem load_contract_witness :
    loadChatHistory (Except.ok (some "[]")) = Json.arr []
    ∧ loadChatHistory (Except.ok (some "not json")) = defaultHistoryJson :=
  ⟨load_contract.1 "[]" (Json.arr []) rfl, load_contract.2.1 "not json" rfl⟩

/-- Claim C10: the initializer performs no structural validation: any
stored string that parses as JSON is returned as the transcript as-is, even
when it is not an array of `{role, content}` records — for example the
stored strings `"null"` and `"{}"`. -/
theorem load_no_validation :
    loadChatHistory (Except.ok (some "null")) = Json.null
    ∧ jsonToTranscript Json.null = none
    ∧ loadChatHistory (Except.ok (some "\x7b\x7d")) = Json.obj []
    ∧ jsonToTranscript (Json.obj []) = none :=
  ⟨rfl, rfl, rfl, rfl⟩

theorem mkData (s : String) : String.mk s.data = s := rfl

theorem hexVal_hexDigit : ∀ d : Nat, d < 16 → hexVal (hexDigit d) = some d := by decide

theorem hexVal_zero : hexVal '0' = some 0 := by decide

theorem parseStrBody_escBody : ∀ (cs rest : List Char),
    parseStrBody (escBody cs ++ '"' :: rest) = some (cs, rest) := by
  intro cs
  induction cs with
  | nil => intro rest; simp [escBody]; unfold parseStrBody; simp
  | cons c cs ih =>
    intro rest
    rw [escBody, List.append_assoc]
    by_cases h1 : c = '"'
    · subst h1; simp [escChar]
      unfold parseStrBody
      simp [unescapeChar, ih]
    · by_cases h2 : c = '\\'
      · subst h2; simp [escChar]
        unfold parseStrBody
        simp [unescapeChar, ih]
      · by_cases h3 : c = '\n'
        · subst h3; simp [escChar]
          unfold parseStrBody
          simp [unescapeChar, ih]
        · by_cases h4 : c = '\r'
          · subst h4; simp [escChar]
            unfold parseStrBody
            simp [unescapeChar, ih]
          · by_cases h5 : c = '\t'
            · subst h5; simp [escChar]
              unfold parseStrBody
              simp [unescapeChar, ih]
            · by_cases h6 : c = '\x08'
              · subst h6; simp [escChar]
                unfold parseStrBody
                simp [unescapeChar, ih]
              · by_cases h7 : c = '\x0c'
                · subst h7; simp [escChar]
                  unfold parseStrBody
                  simp [unescapeChar, ih]
                · by_cases h8 : c.toNat < 32
                  · have hdiv : c.toNat / 16 < 16 := by omega
                    have hmod : c.toNat % 16 < 16 := Nat.mod_lt _ (by omega)
                    have hx : hex4 '0' '0' (hexDigit (c.toNat / 16)) (hexDigit (c.toNat % 16))
                        = some c.toNat := by
                      rw [hex4, hexVal_zero, hexVal_hexDigit _ hdiv, hexVal_hexDigit _ hmod]
                      simp only [Option.some.injEq]
                      omega
                    rw [escChar]
                    simp only [if_neg h1, if_neg h2, if_neg h3, if_neg h4, if_neg h5,
                      if_neg h6, if_neg h7, if_pos h8]
                    unfold parseStrBody
                    simp [hx, ih, Char.ofNat_toNat]
                  · rw [escChar]
                    simp only [if_neg h1, if_neg h2, if_neg h3, if_neg h4, if_neg h5,
                      if_neg h6, if_neg h7, if_neg h8, List.singleton_append]
                    unfold parseStrBody
                    simp [h1, h2, h8, ih]

theorem isWs_dq : isWs '"' = false := by decide
theorem isWs_lbrace : isWs lbrace = false := by decide
theorem isWs_rbrace : isWs rbrace = false := by decide
theorem isWs_colon : isWs ':' = false := by decide
theorem isWs_comma : isWs ',' = false := by decide
theorem isWs_lbrack : isWs '[' = false := by decide
theorem isWs_rbrack : isWs ']' = false := by decide

theorem skipWs_cons (c : Char) (cs : List Char) (h : isWs c = false) :
    skipWs (c :: cs) = c :: cs := by
  unfold skipWs
  rw [h]
  simp

theorem pv_str (s : String) (fuel : Nat) (rest : List Char) :
    pvAux (fuel + 1) .val (strChars s ++ rest) = some (.val (.str s) rest) := by
  rw [strChars]
  unfold pvAux
  rw [List.cons_append, skipWs_cons _ _ isWs_dq]
  simp [parseStrBody_escBody, mkData]

theorem parseStrBody_roleKey (R : List Char) :
    parseStrBody ('r' :: 'o' :: 'l' :: 'e' :: '"' :: R) = some (['r', 'o', 'l', 'e'], R) := by
  have h := parseStrBody_escBody ['r', 'o', 'l', 'e'] R
  simpa [escBody, escChar] using h

theorem parseStrBody_contentKey (R : List Char) :
    parseStrBody ('c' :: 'o' :: 'n' :: 't' :: 'e' :: 'n' :: 't' :: '"' :: R)
      = some (['c', 'o', 'n', 't', 'e', 'n', 't'], R) := by
  have h := parseStrBody_escBody ['c', 'o', 'n', 't', 'e', 'n', 't'] R
  simpa [escBody, escChar] using h

theorem strMk_role : String.mk ['r', 'o', 'l', 'e'] = "role" := rfl

theorem strMk_content : String.mk ['c', 'o', 'n', 't', 'e', 'n', 't'] = "content" := rfl

theorem rbrace_ne_comma : ¬(rbrace = ',') := by decide

theorem pv_mems_contentKey (s : String) (fuel : Nat) (rest : List Char) :
    pvAux (fuel + 1 + 1) .mems
      ('"' :: 'c' :: 'o' :: 'n' :: 't' :: 'e' :: 'n' :: 't' :: '"' :: ':' :: (strChars s ++ rbrace :: rest))
      = some (.mems [("content", Json.str s)] rest) := by
  set g := fuel + 1 with hg
  unfold pvAux
  rw [skipWs_cons _ _ isWs_dq]
  simp [parseStrBody_contentKey, skipWs_cons, isWs_colon, isWs_rbrace, hg, pv_str,
    rbrace_ne_comma, strMk_content]

theorem pv_mems_msg (m : Message) (fuel : Nat) (rest : List Char) :
    pvAux (fuel + 1 + 1 + 1 + 1) .mems
      ('"' :: 'r' :: 'o' :: 'l' :: 'e' :: '"' :: ':'
        :: (strChars m.role ++ ',' :: '"' :: 'c' :: 'o' :: 'n' :: 't' :: 'e' :: 'n' :: 't' :: '"' :: ':'
          :: (strChars m.content ++ rbrace :: rest)))
      = some (.mems [("role", Json.str m.role), ("content", Json.str m.content)] rest) := by
  set g := fuel + 1 + 1 + 1 with hg
  unfold pvAux
  rw [skipWs_cons _ _ isWs_dq]
  simp [parseStrBody_roleKey, skipWs_cons, isWs_colon, isWs_comma, hg, pv_str,
    pv_mems_contentKey, strMk_role]

theorem lbrace_ne_dq : ¬(lbrace = '"') := by decide
theorem lbrace_ne_lbrack : ¬(lbrace = '[') := by decide
theorem dq_ne_rbrace : ¬('"' = rbrace) := by decide

theorem pv_msg (m : Message) (fuel : Nat) (rest : List Char) :
    pvAux (fuel + 1 + 1 + 1 + 1 + 1) .val (msgChars m ++ rest)
      = some (.val (msgToJson m) rest) := by
  set g := fuel + 1 + 1 + 1 + 1 with hg
  rw [msgChars]
  simp only [List.cons_append, List.append_assoc]
  unfold pvAux
  rw [skipWs_cons _ _ isWs_lbrace]
  simp [lbrace_ne_dq, lbrace_ne_lbrack, dq_ne_rbrace, skipWs_cons, isWs_dq, hg,
    pv_mems_msg, msgToJson]

theorem pv_elems_msgs : ∀ (t : List Message) (m : Message) (fuel : Nat) (rest : List Char),
    pvAux (fuel + 7 * t.length + 1 + 1 + 1 + 1 + 1 + 1 + 1) .elems
        (elemsChars (m :: t) ++ ']' :: rest)
      = some (.elems ((m :: t).map msgToJson) rest) := by
  intro t
  induction t with
  | nil =>
    intro m fuel rest
    simp only [List.length_nil, Nat.mul_zero, Nat.add_zero, elemsChars]
    set g := fuel + 1 + 1 + 1 + 1 + 1 + 1 with hg
    unfold pvAux
    rw [hg]
    simp [pv_msg, skipWs_cons, isWs_rbrack]
  | cons m2 t2 ih =>
    intro m fuel rest
    simp only [List.length_cons, elemsChars]
    rw [show fuel + 7 * (t2.length + 1) + 1 + 1 + 1 + 1 + 1 + 1 + 1
        = ((fuel + 7 * t2.length + 1 + 1 + 1 + 1 + 1 + 1 + 1 + 1) + 1 + 1 + 1 + 1 + 1) + 1
        from by ring]
    set g := (fuel + 7 * t2.length + 1 + 1 + 1 + 1 + 1 + 1 + 1 + 1) + 1 + 1 + 1 + 1 + 1 with hg
    unfold pvAux
    rw [hg]
    simp only [List.append_assoc, List.cons_append]
    simp [pv_msg, skipWs_cons, isWs_comma]
    rw [show (fuel + 7 * t2.length + 1 + 1 + 1 + 1 + 1 + 1 + 1 + 1) + 1 + 1 + 1 + 1 + 1
        = (fuel + 1 + 1 + 1 + 1 + 1 + 1) + 7 * t2.length + 1 + 1 + 1 + 1 + 1 + 1 + 1
        from by ring]
    simp [ih]

theorem lbrack_ne_dq : ¬('[' = '"') := by decide
theorem lbrace_ne_rbrack : ¬(lbrace = ']') := by decide

theorem elemsChars_cons_eq (m : Message) (t : List Message) :
    elemsChars (m :: t) = lbrace :: (elemsChars (m :: t)).tail := by
  cases t with
  | nil => unfold elemsChars msgChars; simp
  | cons m2 t2 => unfold elemsChars msgChars; simp

theorem pv_transcript (m : Message) (t : List Message) (fuel : Nat) (rest : List Char) :
    pvAux ((fuel + 7 * t.length + 1 + 1 + 1 + 1 + 1 + 1 + 1) + 1) .val
        (transcriptChars (m :: t) ++ rest)
      = some (.val (transcriptToJson (m :: t)) rest) := by
  rw [transcriptChars]
  set g := fuel + 7 * t.length + 1 + 1 + 1 + 1 + 1 + 1 + 1 with hg
  unfold pvAux
  simp only [List.cons_append, List.append_assoc]
  rw [skipWs_cons _ _ isWs_lbrack]
  have hsk : skipWs (elemsChars (m :: t) ++ ']' :: rest)
      = lbrace :: ((elemsChars (m :: t)).tail ++ ']' :: rest) := by
    conv_lhs => rw [elemsChars_cons_eq m t]
    rw [List.cons_append, skipWs_cons _ _ isWs_lbrace]
  simp [lbrack_ne_dq, hsk, lbrace_ne_rbrack, hg, pv_elems_msgs, transcriptToJson]

theorem strChars_length_ge (s : String) : 2 ≤ (strChars s).length := by
  simp [strChars]

theorem msgChars_length_ge (m : Message) : 24 ≤ (msgChars m).length := by
  have h1 := strChars_length_ge m.role
  have h2 := strChars_length_ge m.content
  simp [msgChars, List.length_append]
  omega

theorem elemsChars_length_ge : ∀ h : List Message, 24 * h.length ≤ (elemsChars h).length
  | [] => by simp [elemsChars]
  | [m] => by simpa [elemsChars] using msgChars_length_ge m
  | m :: m2 :: t => by
    have ih := elemsChars_length_ge (m2 :: t)
    have hm := msgChars_length_ge m
    simp only [elemsChars, List.length_append, List.length_cons] at ih hm ⊢
    omega

theorem transcriptChars_length (h : List Message) :
    (transcriptChars h).length = (elemsChars h).length + 2 := by
  simp [transcriptChars]

theorem jsonParse_stringify (m : Message) (t : List Message) :
    jsonParse (String.mk (transcriptChars (m :: t))) = some (transcriptToJson (m :: t)) := by
  have hlen := elemsChars_length_ge (m :: t)
  simp only [List.length_cons] at hlen
  obtain ⟨x, hx⟩ : ∃ x, 2 * (transcriptChars (m :: t)).length + 2
      = (x + 7 * t.length + 1 + 1 + 1 + 1 + 1 + 1 + 1) + 1 :=
    ⟨2 * (transcriptChars (m :: t)).length + 2 - (7 * t.length + 8), by
      rw [transcriptChars_length]
      omega⟩
  show jsonParseChars (transcriptChars (m :: t)) = some (transcriptToJson (m :: t))
  unfold jsonParseChars
  rw [hx]
  rw [show transcriptChars (m :: t) = transcriptChars (m :: t) ++ [] from (List.append_nil _).symm]
  rw [pv_transcript m t x []]
  simp [skipWs]

theorem jsonToMsg_msgToJson (m : Message) : jsonToMsg (msgToJson m) = some m := rfl

theorem msgsOfJsonList_map : ∀ h : List Message, msgsOfJsonList (h.map msgToJson) = some h := by
  intro h
  induction h with
  | nil => rfl
  | cons m t ih => simp [msgsOfJsonList, jsonToMsg_msgToJson, ih]

theorem jsonToTranscript_transcriptToJson (h : List Message) :
    jsonToTranscript (transcriptToJson h) = some h := by
  simp [jsonToTranscript, transcriptToJson, msgsOfJsonList_map]

/-- Claim C8: appending a message and persisting, then re-loading the same
storage in a fresh session, returns the serialized-then-parsed transcript,
which decodes back to the full appended transcript, whose last element is
the appended message. -/
theorem append_load_roundtrip (st : St) (m : Message) :
    (saveChatHistory true { st with chatHistory := st.chatHistory ++ [m] }).storage
        = some (String.mk (transcriptChars (st.chatHistory ++ [m])))
    ∧ loadChatHistory (Except.ok (some (String.mk (transcriptChars (st.chatHistory ++ [m])))))
        = transcriptToJson (st.chatHistory ++ [m])
    ∧ jsonToTranscript (transcriptToJson (st.chatHistory ++ [m])) = some (st.chatHistory ++ [m])
    ∧ (st.chatHistory ++ [m]).getLast? = some m := by
  refine ⟨by simp [saveChatHistory], ?_, jsonToTranscript_transcriptToJson _, by simp⟩
  obtain ⟨m0, t0, he⟩ : ∃ m0 t0, st.chatHistory ++ [m] = m0 :: t0 := by
    cases hh : st.chatHistory ++ [m] with
    | nil => exact absurd hh (by simp)
    | cons a b => exact ⟨a, b, rfl⟩
  rw [he]
  have hparse := jsonParse_stringify m0 t0
  have hne : String.mk (transcriptChars (m0 :: t0)) ≠ "" := by
    intro hc
    have hd : transcriptChars (m0 :: t0) = [] := congrArg String.data hc
    simp [transcriptChars] at hd
  unfold loadChatHistory
  simp [hne, hparse]

end Haiku
